import Mathlib

/-!
Verification development for the `vmodem` Hayes-modem emulator
(`vmodem.go`).  The Go code is shallowly embedded: the mutable `Modem`
struct becomes a Lean structure threaded explicitly, panics become
`Option.none`, and the terminal / connection byte streams are modelled
by accumulated output strings plus identifiers for connection streams.
The command hook is `nil` in all configurations considered here, so the
hook branch of `processCommand` collapses to the built-in table.
-/

/-- `ModemStatus` from vmodem.go. -/
inductive ModemStatus
  | Idle
  | Dialing
  | Connected
  | ConnectedCmd
  | Ringing
  | Closed
  deriving DecidableEq

/-- `CmdReturn` from vmodem.go. -/
inductive CmdReturn
  | Ok
  | Error
  | Silent
  | Connect
  | NoCarrier
  | NoDialtone
  | Busy
  | NoAnswer
  | Skip
  deriving DecidableEq

/-- The `Modem` struct.  `conn` is the connection stream (`none` = Go
`nil`); `stEpoch` models the generation of `stCtx` (bumped every time
`setStatus` cancels and recreates it); `dials` models the set of
outstanding `processDialing` goroutines as pairs of (captured `stCtx`
epoch, dialled number); `out` is everything written to the tty,
`connOut` everything forwarded to the connection, `closedStreams` the
identifiers of streams whose `Close` was called. -/
structure Modem where
  st : ModemStatus
  stEpoch : Nat
  conn : Option Nat
  sregs : List (Nat × Nat)
  echo : Bool
  shortForm : Bool
  connectStr : String
  hasOutgoingCall : Bool
  dials : List (Nat × String)
  lifetimeCancelled : Bool
  ttyClosed : Bool
  out : String
  connOut : String
  closedStreams : List Nat
  deriving DecidableEq

/-- `checkValidCmdChar` from vmodem.go (byte compared as its code). -/
def checkValidCmdChar (b : Char) : Bool :=
  (65 ≤ b.toNat && b.toNat ≤ 90) || (97 ≤ b.toNat && b.toNat ≤ 122)

/-- `checkValidNumChar` from vmodem.go. -/
def checkValidNumChar (b : Char) : Bool :=
  48 ≤ b.toNat && b.toNat ≤ 57

/-- `ttyWriteStr`: append to the terminal output. -/
def Modem.ttyWrite (m : Modem) (s : String) : Modem :=
  { m with out := m.out ++ s }

/-- `cr()` from vmodem.go: the line ending in the current form. -/
def Modem.cr (m : Modem) : String :=
  if m.shortForm then "\r" else "\r\n"

/-- The result-code text chosen by `printRetCode` (terse digit or
verbose word). -/
def retCodeStr (m : Modem) (ret : CmdReturn) : String :=
  if m.shortForm then
    match ret with
    | .Ok => "0"
    | .Error => "4"
    | .Connect => "1"
    | .NoCarrier => "3"
    | .NoDialtone => "6"
    | .Busy => "7"
    | .NoAnswer => "8"
    | _ => ""
  else
    match ret with
    | .Ok => "OK"
    | .Error => "ERROR"
    | .Connect => m.connectStr
    | .NoCarrier => "NO CARRIER"
    | .NoDialtone => "NO DIALTONE"
    | .Busy => "BUSY"
    | .NoAnswer => "NO ANSWER"
    | _ => ""

/-- `printRetCode` from vmodem.go. -/
def printRetCode (m : Modem) (ret : CmdReturn) : Modem :=
  if ret = .Silent then m
  else m.ttyWrite (m.cr ++ retCodeStr m ret ++ m.cr)

/-- `setStatus` from vmodem.go.  `none` models a panic
(`ErrInvalidStateTransition`, or the nil-pointer dereference of
`m.conn.Close()` when `conn` is nil).  The final `stCtxCancel` /
`WithCancel` pair is modelled by bumping `stEpoch`. -/
def setStatus (m : Modem) (status : ModemStatus) : Option Modem :=
  if m.st = .Closed then none
  else
    let step : Option Modem :=
      match status with
      | .Idle =>
        let m1 := if m.st = .Connected ∨ m.st = .ConnectedCmd ∨ m.st = .Dialing
                  then printRetCode m .NoCarrier else m
        if m.st = .Connected ∨ m.st = .ConnectedCmd ∨ m.st = .Ringing then
          match m1.conn with
          | none => none
          | some c => some { m1 with conn := none,
                                     closedStreams := m1.closedStreams ++ [c] }
        else some m1
      | .Connected =>
        if m.st ≠ .Dialing ∧ m.st ≠ .Ringing ∧ m.st ≠ .ConnectedCmd then none
        else some (printRetCode m .Connect)
      | .ConnectedCmd =>
        if m.st ≠ .Connected then none
        else some (printRetCode m .Ok)
      | .Dialing =>
        if m.st ≠ .Idle then none else some m
      | .Ringing =>
        if m.st ≠ .Idle then none else some m
      | .Closed => some m
    step.map fun m2 => { m2 with st := status, stEpoch := m2.stEpoch + 1 }

/-- `close` from vmodem.go: transition to Closed, cancel the modem
context, close the tty. -/
def close (m : Modem) : Option Modem :=
  (setStatus m .Closed).map fun m1 =>
    { m1 with lifetimeCancelled := true, ttyClosed := true }

/-- Errors returned (not panicked) by the API. -/
inductive VErr
  | modemBusy
  deriving DecidableEq

deriving instance DecidableEq for Except

/-- `incomingCall` from vmodem.go. -/
def incomingCall (m : Modem) (c : Nat) : Option (Except VErr Modem) :=
  if m.st ≠ .Idle then some (.error .modemBusy)
  else (setStatus m .Ringing).map fun m1 => .ok { m1 with conn := some c }

/-- Whether the `stCtx` captured at epoch `cap` is cancelled: every
later `setStatus` cancelled it, as does cancelling the modem context. -/
def scopeCancelled (m : Modem) (cap : Nat) : Bool :=
  cap ≠ m.stEpoch || m.lifetimeCancelled

/-- Outcome of the caller-supplied outgoing-call capability. -/
inductive DialResult
  | failure
  | success (stream : Nat)
  deriving DecidableEq

/-- `processDialing` from vmodem.go, from the point where the dial task
re-acquires the lock after the outgoing-call capability returned.  (The
unlocked early return when the scope is already cancelled before the
capability is even invoked produces no state change and is modelled by
the absence of a step.) -/
def processDialing (m : Modem) (cap : Nat) (res : DialResult) : Option Modem :=
  if scopeCancelled m cap then
    match res with
    | .failure => some m
    | .success s => some { m with closedStreams := m.closedStreams ++ [s] }
  else
    match res with
    | .failure => setStatus m .Idle
    | .success s => setStatus { m with conn := some s } .Connected

/-- Go map read `m.sregs[b]` (missing key yields zero). -/
def sregGet (l : List (Nat × Nat)) (r : Nat) : Nat :=
  ((l.find? fun p => p.1 = r).map fun p => p.2).getD 0

/-- Go map write `m.sregs[r] = v`. -/
def sregSet (l : List (Nat × Nat)) (r v : Nat) : List (Nat × Nat) :=
  (r, v) :: l.filter fun p => p.1 ≠ r

/-- Numeric value of a digit string. -/
def digitsVal (l : List Char) : Nat :=
  l.foldl (fun a c => a * 10 + (c.toNat - 48)) 0

/-- `strconv.Atoi` as used in vmodem.go, where the error is always
discarded so a syntax error yields 0.  (The range clamping of 64-bit
`Atoi` is not modelled: at every call site both the clamped and the
exact value are out of the accepted 0..255 / 0..1 range together.) -/
def atoiGo (s : String) : Int :=
  match s.data with
  | '-' :: ds =>
    if ds ≠ [] ∧ ds.all (fun c => checkValidNumChar c) then -(digitsVal ds : Int) else 0
  | '+' :: ds =>
    if ds ≠ [] ∧ ds.all (fun c => checkValidNumChar c) then (digitsVal ds : Int) else 0
  | ds =>
    if ds.all (fun c => checkValidNumChar c) then (digitsVal ds : Int) else 0

/-- `fmt.Sprintf "%03d"` for the byte-sized register values. -/
def pad3 (v : Nat) : String :=
  (if v < 10 then "00" else if v < 100 then "0" else "") ++ toString v

/-- `strings.ToUpper` restricted to the ASCII strings produced by the
tokenizer. -/
def upperStr (s : String) : String :=
  String.mk (s.data.map Char.toUpper)

/-- `processCommand` from vmodem.go (command hook nil, so the hook
branch is skipped).  `none` models a panic propagated out of
`setStatus`.  The `go m.processDialing(m.stCtx, ...)` spawn in the `D`
case is modelled by recording the captured epoch and number in
`dials`. -/
def processCommand (m : Modem) (cmdChar cmdNum : String)
    (cmdAssign cmdQuery : Bool) (cmdAssignVal : String) :
    Option (CmdReturn × Modem) :=
  if cmdChar = "S" then
    if atoiGo cmdNum < 0 ∨ atoiGo cmdNum > 255 then some (.Error, m)
    else if cmdAssign then
      if atoiGo cmdAssignVal < 0 ∨ atoiGo cmdAssignVal > 255 then some (.Error, m)
      else some (.Ok, { m with
        sregs := sregSet m.sregs (atoiGo cmdNum).toNat (atoiGo cmdAssignVal).toNat })
    else if cmdQuery then
      some (.Ok, m.ttyWrite (m.cr ++ pad3 (sregGet m.sregs (atoiGo cmdNum).toNat) ++ "\r\n"))
    else some (.Ok, m)
  else if cmdChar = "E" then
    if atoiGo cmdNum = 0 then some (.Ok, { m with echo := false })
    else if atoiGo cmdNum = 1 then some (.Ok, { m with echo := true })
    else some (.Error, m)
  else if cmdChar = "V" then
    if atoiGo cmdNum = 0 then some (.Ok, { m with shortForm := true })
    else if atoiGo cmdNum = 1 then some (.Ok, { m with shortForm := false })
    else some (.Error, m)
  else if cmdChar = "D" then
    if m.st ≠ .Idle then some (.Error, m)
    else if m.hasOutgoingCall then
      (setStatus m .Dialing).map fun m1 =>
        (.Silent, { m1 with dials := m1.dials ++ [(m1.stEpoch, cmdAssignVal)] })
    else some (.NoCarrier, m)
  else if cmdChar = "A" then
    if m.st = .Idle then some (.NoCarrier, m)
    else if m.st ≠ .Ringing then some (.Error, m)
    else (setStatus m .Connected).map fun m1 => (.Silent, m1)
  else if cmdChar = "H" then
    if m.st = .Connected ∨ m.st = .ConnectedCmd then
      (setStatus m .Idle).map fun m1 => (.Silent, m1)
    else some (.Ok, m)
  else if cmdChar = "O" then
    if m.st ≠ .ConnectedCmd then some (.Error, m)
    else (setStatus m .Connected).map fun m1 => (.Silent, m1)
  else some (.Ok, m)

/-- The per-sub-command scanner state of `processAtCommand`. -/
structure SubCmd where
  cmdChar : String
  cmdNum : String
  cmdLong : Bool
  cmdAssign : Bool
  cmdQuery : Bool
  cmdAssignVal : String
  deriving DecidableEq

/-- Scanner state at the top of each outer iteration. -/
def initSub : SubCmd :=
  { cmdChar := "", cmdNum := "", cmdLong := false, cmdAssign := false,
    cmdQuery := false, cmdAssignVal := "" }

/-- The inner byte-scanning loop of `processAtCommand`: reads bytes off
the buffer, building one sub-command.  Returns the scanner state, the
`e` (malformed) flag, and the unread remainder of the line (`UnreadByte`
puts the byte back). -/
def parseSub : List Char → SubCmd → SubCmd × Bool × List Char
  | [], s => (s, false, [])
  | b :: rest, s =>
    if b = '?' then
      if s.cmdChar ≠ "" then ({ s with cmdQuery := true }, false, rest)
      else (s, true, rest)
    else if s.cmdAssign then
      if !s.cmdLong && !checkValidNumChar b then (s, false, b :: rest)
      else parseSub rest { s with cmdAssignVal := s.cmdAssignVal.push b }
    else if b = '+' ∨ b = '#' then
      if s.cmdChar = "" then
        parseSub rest { s with cmdLong := true, cmdChar := s.cmdChar.push b }
      else (s, true, rest)
    else if b = '=' then
      if s.cmdChar ≠ "" then parseSub rest { s with cmdAssign := true }
      else (s, true, rest)
    else if s.cmdLong then
      if checkValidCmdChar b then parseSub rest { s with cmdChar := s.cmdChar.push b }
      else (s, true, rest)
    else if s.cmdChar = "" ∨ s.cmdChar = "&" then
      if b = '&' ∧ s.cmdChar = "" ∧ rest ≠ [] then
        parseSub rest { s with cmdChar := s.cmdChar.push b }
      else if checkValidCmdChar b then
        let c := s.cmdChar.push b
        if c = "d" ∨ c = "D" then
          parseSub rest { s with cmdChar := c, cmdLong := true, cmdAssign := true }
        else parseSub rest { s with cmdChar := c }
      else (s, true, rest)
    else
      if checkValidNumChar b then parseSub rest { s with cmdNum := s.cmdNum.push b }
      else (s, false, b :: rest)

/-- Result of the outer loop of `processAtCommand`. -/
inductive LoopOut
  | out (r : CmdReturn) (m : Modem)
  | panicked
  | fuelOut
  deriving DecidableEq

/-- The outer sub-command loop of `processAtCommand`, structurally
recursive on a fuel bound.  Since every non-malformed inner scan
consumes at least one byte (`atLoopF_no_fuelOut`), fuel
`input.length + 1` always suffices, so `fuelOut` is unreachable from
`processAtCommand`. -/
def atLoopF : Nat → Modem → List Char → CmdReturn → LoopOut
  | 0, _, _, _ => .fuelOut
  | _ + 1, m, [], cmdRet => .out cmdRet m
  | n + 1, m, b :: tl, _ =>
    match parseSub (b :: tl) initSub with
    | (s, e, rest) =>
      if e then .out .Error m
      else
        match processCommand m (upperStr s.cmdChar) s.cmdNum
            s.cmdAssign s.cmdQuery s.cmdAssignVal with
        | none => .panicked
        | some (r, m1) =>
          if r = .Error then .out .Error m1
          else if s.cmdLong then .out r m1
          else atLoopF n m1 rest r

/-- `processAtCommand` from vmodem.go: the status gate, then the
chaining loop starting with `cmdRet = RetCodeOk`. -/
def processAtCommand (m : Modem) (cmd : String) : Option (CmdReturn × Modem) :=
  if m.st ≠ .Idle ∧ m.st ≠ .ConnectedCmd then some (.Error, m)
  else
    match atLoopF (cmd.data.length + 1) m cmd.data .Ok with
    | .out r m1 => some (r, m1)
    | _ => none

/-- Instrumented variant of the outer loop: collects the results of the
executed sub-commands in order, whether the line was aborted as
malformed, and the final modem.  Used to state how the reported result
relates to the individual sub-command results. -/
def atChainF : Nat → Modem → List Char → List CmdReturn × Bool × Option Modem
  | 0, m, _ => ([], false, some m)
  | _ + 1, m, [] => ([], false, some m)
  | n + 1, m, b :: tl =>
    match parseSub (b :: tl) initSub with
    | (s, e, rest) =>
      if e then ([], true, some m)
      else
        match processCommand m (upperStr s.cmdChar) s.cmdNum
            s.cmdAssign s.cmdQuery s.cmdAssignVal with
        | none => ([], false, none)
        | some (r, m1) =>
          if r = .Error then ([r], false, some m1)
          else if s.cmdLong then ([r], false, some m1)
          else
            match atChainF n m1 rest with
            | (rs, mf, mo) => (r :: rs, mf, mo)

/-- The executed sub-command results of a whole line, at the fuel used
by `processAtCommand`. -/
def atChain (m : Modem) (cmd : String) : List CmdReturn × Bool × Option Modem :=
  atChainF (cmd.data.length + 1) m cmd.data

/-- `strconv.IsPrint` on `rune(b)` for a single byte `b` (ASCII plus
printable Latin-1, soft hyphen excluded). -/
def isPrintGo (b : Char) : Bool :=
  b = ' ' || (33 ≤ b.toNat && b.toNat ≤ 126) ||
    (161 ≤ b.toNat && b.toNat ≤ 255 && b.toNat ≠ 173)

/-- The loop-local state of `ttyReadTask`. -/
structure TtyState where
  aFlag : Bool
  atFlag : Bool
  buffer : String
  lastCmd : String
  deriving DecidableEq

/-- `ttyReadTask` locals at task start. -/
def initTty : TtyState :=
  { aFlag := false, atFlag := false, buffer := "", lastCmd := "" }

/-- One iteration of the `ttyReadTask` loop body for the byte `b`, from
the point after `m.tty.Read` returned, with the lock held.  `none`
models a panic propagated out of `setStatus`. -/
def ttyByte (m : Modem) (t : TtyState) (b : Char) : Option (Modem × TtyState) :=
  if m.st = .Connected then
    some (if m.conn.isSome then { m with connOut := m.connOut.push b } else m, t)
  else if m.st = .Dialing then
    (setStatus m .Idle).map fun m1 => (m1, t)
  else if !t.atFlag then
    let m1 := if m.echo then m.ttyWrite (String.singleton b) else m
    if b.toUpper = 'A' then some (m1, { t with aFlag := true })
    else if t.aFlag ∧ b = '/' then
      let m2 := m1.ttyWrite "\r"
      (processAtCommand m2 t.lastCmd).map fun p =>
        (printRetCode p.2 p.1, { t with aFlag := false })
    else if t.aFlag ∧ b.toUpper = 'T' then
      some (m1, { t with atFlag := true, aFlag := false })
    else some (m1, { t with aFlag := false })
  else
    if b.toNat = 0x7f then
      if t.buffer.length > 0 then
        some (m.ttyWrite "\x1b[D \x1b[D", { t with buffer := t.buffer.dropRight 1 })
      else some (m, t)
    else if b = '\r' then
      let m1 := m.ttyWrite "\r"
      (processAtCommand m1 t.buffer).map fun p =>
        (printRetCode p.2 p.1,
         { t with atFlag := false, lastCmd := t.buffer, buffer := "" })
    else if t.buffer.length < 100 ∧ isPrintGo b then
      some ((if m.echo then m.ttyWrite (String.singleton b) else m),
            { t with buffer := t.buffer.push b })
    else some (m, t)

/-- `NewModem` with a non-nil tty, nil command hook, empty connect
string (defaulted to "CONNECT") and an outgoing-call capability present
iff `hasOut`. -/
def freshModem (hasOut : Bool) : Modem :=
  { st := .Idle, stEpoch := 0, conn := none, sregs := [], echo := true,
    shortForm := false, connectStr := "CONNECT", hasOutgoingCall := hasOut,
    dials := [], lifetimeCancelled := false, ttyClosed := false, out := "",
    connOut := "", closedStreams := [] }

/-- A whole system under observation: the modem plus the read-task
locals. -/
structure Sys where
  m : Modem
  t : TtyState
  deriving DecidableEq

/-- The system right after `NewModem`. -/
def initSys (hasOut : Bool) : Sys :=
  { m := freshModem hasOut, t := initTty }

/-- One lock-acquire/lock-release section of any of the concurrent
actors: a byte handled by the read task, a public synchronized API
call, or the dial task resuming.  Between two steps the lock is
released; these are the observation points. -/
inductive Step : Sys → Sys → Prop
  | tty {s : Sys} {m1 : Modem} {t1 : TtyState} (b : Char)
      (hrun : s.m.lifetimeCancelled = false)
      (h : ttyByte s.m s.t b = some (m1, t1)) : Step s ⟨m1, t1⟩
  | incoming {s : Sys} {m1 : Modem} (c : Nat)
      (h : incomingCall s.m c = some (.ok m1)) : Step s ⟨m1, s.t⟩
  | atCmd {s : Sys} {r : CmdReturn} {m1 : Modem} (cmd : String)
      (h : processAtCommand s.m cmd = some (r, m1)) : Step s ⟨m1, s.t⟩
  | closeStep {s : Sys} {m1 : Modem}
      (h : close s.m = some m1) : Step s ⟨m1, s.t⟩
  | dialFin {s : Sys} {m1 : Modem} (cap : Nat) (num : String) (res : DialResult)
      (hmem : (cap, num) ∈ s.m.dials)
      (h : processDialing s.m cap res = some m1) :
      Step s ⟨{ m1 with dials := m1.dials.erase (cap, num) }, s.t⟩
  | writeTty {s : Sys} (str : String) : Step s ⟨s.m.ttyWrite str, s.t⟩

/-- States reachable from a freshly constructed modem. -/
inductive Reachable : Sys → Prop
  | init (hasOut : Bool) : Reachable (initSys hasOut)
  | step {s s' : Sys} : Reachable s → Step s s' → Reachable s'

/-- The statuses in which a connection stream is held. -/
def connStatuses (st : ModemStatus) : Prop :=
  st = .Ringing ∨ st = .Connected ∨ st = .ConnectedCmd

instance (st : ModemStatus) : Decidable (connStatuses st) := by
  unfold connStatuses; infer_instance

/-- Internal invariant: outside Closed the connection is present exactly
in `connStatuses`; the captured epochs of outstanding dial tasks never
exceed the current epoch; and a dial task whose captured scope is still
current can only exist while Dialing. -/
def InvM (m : Modem) : Prop :=
  (m.st ≠ .Closed → (m.conn.isSome = true ↔ connStatuses m.st)) ∧
  (∀ p ∈ m.dials, p.1 ≤ m.stEpoch) ∧
  (∀ p ∈ m.dials, p.1 = m.stEpoch → m.st = .Dialing)

/-- The transition table of spec §4.1, verbatim. -/
def specTable : ModemStatus → ModemStatus → Bool
  | .Idle, .Dialing => true
  | .Idle, .Ringing => true
  | .Idle, .Closed => true
  | .Dialing, .Connected => true
  | .Dialing, .Idle => true
  | .Dialing, .Closed => true
  | .Ringing, .Connected => true
  | .Ringing, .Idle => true
  | .Ringing, .Closed => true
  | .Connected, .ConnectedCmd => true
  | .Connected, .Idle => true
  | .Connected, .Closed => true
  | .ConnectedCmd, .Connected => true
  | .ConnectedCmd, .Idle => true
  | .ConnectedCmd, .Closed => true
  | _, _ => false

/-- The terminal output the spec's side-effect table prescribes for a
successful transition. -/
def transOutput (m : Modem) (tgt : ModemStatus) : String :=
  if tgt = .Idle ∧ (m.st = .Connected ∨ m.st = .ConnectedCmd ∨ m.st = .Dialing) then
    m.cr ++ retCodeStr m .NoCarrier ++ m.cr
  else if tgt = .Connected then m.cr ++ retCodeStr m .Connect ++ m.cr
  else if tgt = .ConnectedCmd then m.cr ++ retCodeStr m .Ok ++ m.cr
  else ""

/-- Whether the spec's side-effect table prescribes discarding the
connection for a successful transition. -/
def discardsConn (prev tgt : ModemStatus) : Bool :=
  tgt = .Idle ∧ (prev = .Connected ∨ prev = .ConnectedCmd ∨ prev = .Ringing)

/-- The Ringing modem obtained by injecting incoming call 3 into a fresh
modem. -/
def ringingM : Modem :=
  { freshModem false with st := .Ringing, stEpoch := 1, conn := some 3 }

/-- The Ringing modem obtained by injecting incoming call 7 into a fresh
modem. -/
def c2m1 : Modem :=
  { freshModem false with st := .Ringing, stEpoch := 1, conn := some 7 }

/-- The observation point right after closing `c2m1`. -/
def c2m2 : Modem :=
  { c2m1 with st := .Closed, stEpoch := 2, lifetimeCancelled := true,
              ttyClosed := true }

/-- A Dialing modem with an outgoing-call capability. -/
def dialingM : Modem :=
  { freshModem true with st := .Dialing }

/-- A fresh modem switched to terse result-code form. -/
def terseModem : Modem :=
  { freshModem false with shortForm := true }

/-- Entry-mode read-task state whose edit buffer is full (100 bytes). -/
def fullBuf : TtyState :=
  { aFlag := false, atFlag := true,
    buffer := String.mk (List.replicate 100 'a'), lastCmd := "" }
theorem parseSub_le (input : List Char) : ∀ s : SubCmd,
    (parseSub input s).2.2.length ≤ input.length := by
  induction input with
  | nil => intro s; simp [parseSub]
  | cons b rest ih =>
    intro s
    simp only [parseSub]
    repeat' split
    all_goals simp_all [List.length_cons]
    all_goals exact le_trans (ih _) (Nat.le_succ _)

theorem parseSub_init_progress (b : Char) (rest : List Char) :
    (parseSub (b :: rest) initSub).2.1 = true ∨
    (parseSub (b :: rest) initSub).2.2.length ≤ rest.length := by
  simp only [parseSub, initSub]
  repeat' split
  all_goals simp_all
  all_goals right
  all_goals exact parseSub_le rest _

theorem atLoopF_no_fuelOut : ∀ (n : Nat) (input : List Char) (m : Modem) (r0 : CmdReturn),
    input.length < n → atLoopF n m input r0 ≠ .fuelOut := by
  intro n
  induction n with
  | zero => intro input m r0 h; omega
  | succ k ih =>
    intro input m r0 h
    match input with
    | [] => simp [atLoopF]
    | b :: rest =>
      have hprog := parseSub_init_progress b rest
      rcases hp : parseSub (b :: rest) initSub with ⟨s, e, rem⟩
      rw [hp] at hprog
      simp only [atLoopF, hp]
      rcases e with _ | _
      · simp only [Bool.false_eq_true, if_false]
        rcases hc : processCommand m (upperStr s.cmdChar) s.cmdNum s.cmdAssign s.cmdQuery
            s.cmdAssignVal with _ | ⟨r, m1⟩
        · simp
        · simp only []
          split
          · simp
          · split
            · simp
            · apply ih
              simp only [List.length_cons] at h
              simp at hprog
              omega
      · simp

theorem setStatus_ringing_of_idle (m : Modem) (h : m.st = .Idle) :
    setStatus m .Ringing = some { m with st := .Ringing, stEpoch := m.stEpoch + 1 } := by
  simp [setStatus, h]

theorem setStatus_dialing_of_idle (m : Modem) (h : m.st = .Idle) :
    setStatus m .Dialing = some { m with st := .Dialing, stEpoch := m.stEpoch + 1 } := by
  simp [setStatus, h]

theorem setStatus_closed_of (m : Modem) (h : m.st ≠ .Closed) :
    setStatus m .Closed = some { m with st := .Closed, stEpoch := m.stEpoch + 1 } := by
  simp [setStatus, h]

theorem setStatus_connected_of (m : Modem)
    (h : m.st = .Dialing ∨ m.st = .Ringing ∨ m.st = .ConnectedCmd) :
    setStatus m .Connected =
      some { m with st := .Connected, stEpoch := m.stEpoch + 1,
                    out := m.out ++ m.cr ++ retCodeStr m .Connect ++ m.cr } := by
  rcases h with h | h | h <;>
    simp [setStatus, h, printRetCode, Modem.ttyWrite, retCodeStr, String.append_assoc]

theorem setStatus_connectedCmd_of (m : Modem) (h : m.st = .Connected) :
    setStatus m .ConnectedCmd =
      some { m with st := .ConnectedCmd, stEpoch := m.stEpoch + 1,
                    out := m.out ++ m.cr ++ retCodeStr m .Ok ++ m.cr } := by
  simp [setStatus, h, printRetCode, Modem.ttyWrite, retCodeStr, String.append_assoc]

theorem setStatus_idle_of_dialing (m : Modem) (h : m.st = .Dialing) :
    setStatus m .Idle =
      some { m with st := .Idle, stEpoch := m.stEpoch + 1,
                    out := m.out ++ m.cr ++ retCodeStr m .NoCarrier ++ m.cr } := by
  simp [setStatus, h, printRetCode, Modem.ttyWrite, retCodeStr, String.append_assoc]

theorem setStatus_idle_of_connected (m : Modem) (c : Nat)
    (h : m.st = .Connected ∨ m.st = .ConnectedCmd) (hc : m.conn = some c) :
    setStatus m .Idle =
      some { m with st := .Idle, stEpoch := m.stEpoch + 1,
                    out := m.out ++ m.cr ++ retCodeStr m .NoCarrier ++ m.cr,
                    conn := none, closedStreams := m.closedStreams ++ [c] } := by
  rcases h with h | h <;>
    simp [setStatus, h, hc, printRetCode, Modem.ttyWrite, retCodeStr, String.append_assoc]

theorem setStatus_idle_of_ringing (m : Modem) (c : Nat)
    (h : m.st = .Ringing) (hc : m.conn = some c) :
    setStatus m .Idle =
      some { m with st := .Idle, stEpoch := m.stEpoch + 1,
                    conn := none, closedStreams := m.closedStreams ++ [c] } := by
  simp [setStatus, h, hc]

theorem InvM_of_fields {m m1 : Modem} (hm : InvM m) (hst : m1.st = m.st)
    (hconn : m1.conn = m.conn) (hdials : m1.dials = m.dials)
    (hep : m1.stEpoch = m.stEpoch) : InvM m1 := by
  unfold InvM at *
  rw [hst, hconn, hdials, hep]
  exact hm

theorem dials_bump {ds : List (Nat × String)} {e : Nat} {C : Prop}
    (h2 : ∀ p ∈ ds, p.1 ≤ e) :
    (∀ p ∈ ds, p.1 ≤ e + 1) ∧ (∀ p ∈ ds, p.1 = e + 1 → C) := by
  constructor
  · intro p hp; exact le_trans (h2 p hp) (Nat.le_succ e)
  · intro p hp he
    have := h2 p hp
    omega


theorem InvM_bump {m m1 : Modem} (hm : InvM m)
    (hep : m1.stEpoch = m.stEpoch + 1) (hdials : m1.dials = m.dials)
    (hconn : m1.st ≠ .Closed → (m1.conn.isSome = true ↔ connStatuses m1.st)) :
    InvM m1 := by
  refine ⟨hconn, ?_, ?_⟩
  · intro p hp
    rw [hep]
    exact le_trans (hm.2.1 p (hdials ▸ hp)) (Nat.le_succ _)
  · intro p hp he
    have := hm.2.1 p (hdials ▸ hp)
    rw [hep] at he
    exact absurd he (by omega)

theorem conn_none_of_idle {m : Modem} (hm : InvM m) (h : m.st = .Idle) :
    m.conn = none := by
  have h1 := hm.1 (by rw [h]; intro hx; exact ModemStatus.noConfusion hx)
  rw [h] at h1
  simp [connStatuses] at h1
  exact Option.not_isSome_iff_eq_none.1 (by simp [h1])

theorem conn_none_of_dialing {m : Modem} (hm : InvM m) (h : m.st = .Dialing) :
    m.conn = none := by
  have h1 := hm.1 (by rw [h]; intro hx; exact ModemStatus.noConfusion hx)
  rw [h] at h1
  simp [connStatuses] at h1
  exact Option.not_isSome_iff_eq_none.1 (by simp [h1])

theorem conn_some_of (hm : InvM ((m : Modem))) (h : connStatuses m.st)
    (hne : m.st ≠ .Closed) : ∃ c, m.conn = some c := by
  have h1 := (hm.1 hne).2 h
  exact Option.isSome_iff_exists.1 h1

theorem processCommand_InvM (m : Modem) (c n : String) (a q : Bool) (v : String)
    (hm : InvM m) (r : CmdReturn) (m1 : Modem)
    (h : processCommand m c n a q v = some (r, m1)) : InvM m1 := by
  unfold processCommand at h
  by_cases hS : c = "S"
  · rw [if_pos hS] at h
    split_ifs at h <;>
      (simp only [Option.some.injEq, Prod.mk.injEq] at h
       obtain ⟨hr, hm1⟩ := h
       subst hm1
       exact InvM_of_fields hm rfl rfl rfl rfl)
  rw [if_neg hS] at h
  by_cases hE : c = "E"
  · rw [if_pos hE] at h
    split_ifs at h <;>
      (simp only [Option.some.injEq, Prod.mk.injEq] at h
       obtain ⟨hr, hm1⟩ := h
       subst hm1
       exact InvM_of_fields hm rfl rfl rfl rfl)
  rw [if_neg hE] at h
  by_cases hV : c = "V"
  · rw [if_pos hV] at h
    split_ifs at h <;>
      (simp only [Option.some.injEq, Prod.mk.injEq] at h
       obtain ⟨hr, hm1⟩ := h
       subst hm1
       exact InvM_of_fields hm rfl rfl rfl rfl)
  rw [if_neg hV] at h
  by_cases hD : c = "D"
  · rw [if_pos hD] at h
    by_cases hst : m.st = ModemStatus.Idle
    · rw [if_neg (by simp [hst])] at h
      by_cases hcap : m.hasOutgoingCall
      · rw [if_pos hcap, setStatus_dialing_of_idle m hst] at h
        simp only [Option.map_some', Option.some.injEq, Prod.mk.injEq] at h
        obtain ⟨hr, hm1⟩ := h
        subst hm1
        have hnone := conn_none_of_idle hm hst
        refine ⟨?_, ?_, ?_⟩
        · intro _
          simp [connStatuses, hnone]
        · intro p hp
          rcases List.mem_append.1 hp with hp | hp
          · exact le_trans (hm.2.1 p hp) (Nat.le_succ _)
          · simp only [List.mem_singleton] at hp
            subst hp
            simp
        · intro p hp he
          rfl
      · rw [if_neg hcap] at h
        simp only [Option.some.injEq, Prod.mk.injEq] at h
        obtain ⟨hr, hm1⟩ := h
        subst hm1
        exact InvM_of_fields hm rfl rfl rfl rfl
    · rw [if_pos (by simp [hst])] at h
      simp only [Option.some.injEq, Prod.mk.injEq] at h
      obtain ⟨hr, hm1⟩ := h
      subst hm1
      exact InvM_of_fields hm rfl rfl rfl rfl
  rw [if_neg hD] at h
  by_cases hA : c = "A"
  · rw [if_pos hA] at h
    by_cases hst : m.st = ModemStatus.Idle
    · rw [if_pos hst] at h
      simp only [Option.some.injEq, Prod.mk.injEq] at h
      obtain ⟨hr, hm1⟩ := h
      subst hm1
      exact InvM_of_fields hm rfl rfl rfl rfl
    rw [if_neg hst] at h
    by_cases hst2 : m.st = ModemStatus.Ringing
    · rw [if_neg (by simp [hst2]), setStatus_connected_of m (Or.inr (Or.inl hst2))] at h
      simp only [Option.map_some', Option.some.injEq, Prod.mk.injEq] at h
      obtain ⟨hr, hm1⟩ := h
      subst hm1
      have hs : m.conn.isSome = true := by
        have h1 := hm.1 (by rw [hst2]; intro hx; exact ModemStatus.noConfusion hx)
        exact h1.2 (by rw [hst2]; exact Or.inl rfl)
      refine InvM_bump hm rfl rfl ?_
      intro _
      simp only []
      constructor
      · intro _; exact Or.inr (Or.inl rfl)
      · intro _; exact hs
    · rw [if_pos (by simp [hst2])] at h
      simp only [Option.some.injEq, Prod.mk.injEq] at h
      obtain ⟨hr, hm1⟩ := h
      subst hm1
      exact InvM_of_fields hm rfl rfl rfl rfl
  rw [if_neg hA] at h
  by_cases hH : c = "H"
  · rw [if_pos hH] at h
    by_cases hst : m.st = ModemStatus.Connected ∨ m.st = ModemStatus.ConnectedCmd
    · obtain ⟨cn, hcn⟩ := conn_some_of hm
        (by rcases hst with hst | hst <;> rw [hst] <;> simp [connStatuses])
        (by rcases hst with hst | hst <;> (rw [hst]; intro hx; exact ModemStatus.noConfusion hx))
      rw [if_pos hst, setStatus_idle_of_connected m cn hst hcn] at h
      simp only [Option.map_some', Option.some.injEq, Prod.mk.injEq] at h
      obtain ⟨hr, hm1⟩ := h
      subst hm1
      refine InvM_bump hm rfl rfl ?_
      intro _
      simp [connStatuses]
    · rw [if_neg hst] at h
      simp only [Option.some.injEq, Prod.mk.injEq] at h
      obtain ⟨hr, hm1⟩ := h
      subst hm1
      exact InvM_of_fields hm rfl rfl rfl rfl
  rw [if_neg hH] at h
  by_cases hO : c = "O"
  · rw [if_pos hO] at h
    by_cases hst : m.st = ModemStatus.ConnectedCmd
    · rw [if_neg (by simp [hst]), setStatus_connected_of m (Or.inr (Or.inr hst))] at h
      simp only [Option.map_some', Option.some.injEq, Prod.mk.injEq] at h
      obtain ⟨hr, hm1⟩ := h
      subst hm1
      have hs : m.conn.isSome = true := by
        have h1 := hm.1 (by rw [hst]; intro hx; exact ModemStatus.noConfusion hx)
        exact h1.2 (by rw [hst]; exact Or.inr (Or.inr rfl))
      refine InvM_bump hm rfl rfl ?_
      intro _
      constructor
      · intro _; exact Or.inr (Or.inl rfl)
      · intro _; exact hs
    · rw [if_pos (by simp [hst])] at h
      simp only [Option.some.injEq, Prod.mk.injEq] at h
      obtain ⟨hr, hm1⟩ := h
      subst hm1
      exact InvM_of_fields hm rfl rfl rfl rfl
  rw [if_neg hO] at h
  simp only [Option.some.injEq, Prod.mk.injEq] at h
  obtain ⟨hr, hm1⟩ := h
  subst hm1
  exact InvM_of_fields hm rfl rfl rfl rfl

theorem atLoopF_InvM : ∀ (fuel : Nat) (input : List Char) (m : Modem)
    (r0 r : CmdReturn) (m1 : Modem), InvM m →
    atLoopF fuel m input r0 = .out r m1 → InvM m1 := by
  intro fuel
  induction fuel with
  | zero => intro input m r0 r m1 hm h; simp [atLoopF] at h
  | succ k ih =>
    intro input m r0 r m1 hm h
    match input with
    | [] =>
      simp only [atLoopF, LoopOut.out.injEq] at h
      rw [← h.2]
      exact hm
    | b :: rest =>
      rcases hp : parseSub (b :: rest) initSub with ⟨s, e, rem⟩
      simp only [atLoopF, hp] at h
      rcases e with _ | _
      · simp only [Bool.false_eq_true, if_false] at h
        rcases hc : processCommand m (upperStr s.cmdChar) s.cmdNum s.cmdAssign s.cmdQuery
            s.cmdAssignVal with _ | ⟨r2, m2⟩
        · rw [hc] at h; simp at h
        · rw [hc] at h
          have hm2 : InvM m2 := processCommand_InvM m _ _ _ _ _ hm _ _ hc
          simp only [] at h
          split at h
          · simp only [LoopOut.out.injEq] at h
            rw [← h.2]
            exact hm2
          · split at h
            · simp only [LoopOut.out.injEq] at h
              rw [← h.2]
              exact hm2
            · exact ih rem m2 r2 r m1 hm2 h
      · simp only [if_true] at h
        simp only [LoopOut.out.injEq] at h
        rw [← h.2]
        exact hm

theorem processAtCommand_InvM (m : Modem) (cmd : String) (r : CmdReturn) (m1 : Modem)
    (hm : InvM m) (h : processAtCommand m cmd = some (r, m1)) : InvM m1 := by
  unfold processAtCommand at h
  split at h
  · simp only [Option.some.injEq, Prod.mk.injEq] at h
    rw [← h.2]
    exact hm
  · rcases hl : atLoopF (cmd.data.length + 1) m cmd.data .Ok with ⟨r2, m2⟩ | _ | _ <;>
      rw [hl] at h <;> simp at h
    rw [← h.2]
    exact atLoopF_InvM _ _ _ _ _ _ hm hl

theorem printRetCode_InvM (m : Modem) (ret : CmdReturn) (hm : InvM m) :
    InvM (printRetCode m ret) := by
  unfold printRetCode
  split
  · exact hm
  · exact InvM_of_fields hm rfl rfl rfl rfl

theorem ttyWrite_InvM (m : Modem) (s : String) (hm : InvM m) : InvM (m.ttyWrite s) :=
  InvM_of_fields hm rfl rfl rfl rfl

theorem echoed_InvM (m : Modem) (s : String) (hm : InvM m) :
    InvM (if m.echo = true then m.ttyWrite s else m) := by
  split
  · exact InvM_of_fields hm rfl rfl rfl rfl
  · exact hm

theorem ttyByte_InvM (m : Modem) (t : TtyState) (b : Char) (m1 : Modem) (t1 : TtyState)
    (hm : InvM m) (h : ttyByte m t b = some (m1, t1)) : InvM m1 := by
  unfold ttyByte at h
  by_cases hC : m.st = ModemStatus.Connected
  · rw [if_pos hC] at h
    simp only [Option.some.injEq, Prod.mk.injEq] at h
    rw [← h.1]
    split
    · exact InvM_of_fields hm rfl rfl rfl rfl
    · exact hm
  rw [if_neg hC] at h
  by_cases hD : m.st = ModemStatus.Dialing
  · rw [if_pos hD, setStatus_idle_of_dialing m hD] at h
    simp only [Option.map_some', Option.some.injEq, Prod.mk.injEq] at h
    rw [← h.1]
    have hnone := conn_none_of_dialing hm hD
    refine InvM_bump hm rfl rfl ?_
    intro _
    simp [connStatuses, hnone]
  rw [if_neg hD] at h
  by_cases hat : t.atFlag
  · simp only [hat, Bool.not_true, Bool.false_eq_true, if_false] at h
    by_cases hdel : b.toNat = 0x7f
    · rw [if_pos hdel] at h
      split at h <;>
        (simp only [Option.some.injEq, Prod.mk.injEq] at h
         rw [← h.1]
         exact InvM_of_fields hm rfl rfl rfl rfl)
    rw [if_neg hdel] at h
    by_cases hcr : b = '\r'
    · rw [if_pos hcr] at h
      rcases hpc : processAtCommand (m.ttyWrite "\r") t.buffer with _ | ⟨r2, m2⟩ <;>
        rw [hpc] at h
      · simp at h
      · simp only [Option.map_some', Option.some.injEq, Prod.mk.injEq] at h
        rw [← h.1]
        exact printRetCode_InvM _ _
          (processAtCommand_InvM _ _ _ _ (ttyWrite_InvM _ _ hm) hpc)
    rw [if_neg hcr] at h
    split at h <;>
      (simp only [Option.some.injEq, Prod.mk.injEq] at h
       rw [← h.1]
       first
         | exact echoed_InvM m _ hm
         | exact hm)
  · simp only [hat] at h
    simp only [Bool.not_false, if_true] at h
    by_cases hA : b.toUpper = 'A'
    · rw [if_pos hA] at h
      simp only [Option.some.injEq, Prod.mk.injEq] at h
      rw [← h.1]
      exact echoed_InvM m _ hm
    rw [if_neg hA] at h
    by_cases hsl : t.aFlag = true ∧ b = '/'
    · rw [if_pos hsl] at h
      rcases hpc : processAtCommand ((if m.echo = true then m.ttyWrite (String.singleton b)
          else m).ttyWrite "\r") t.lastCmd with _ | ⟨r2, m2⟩ <;> rw [hpc] at h
      · simp at h
      · simp only [Option.map_some', Option.some.injEq, Prod.mk.injEq] at h
        rw [← h.1]
        exact printRetCode_InvM _ _
          (processAtCommand_InvM _ _ _ _ (ttyWrite_InvM _ _ (echoed_InvM m _ hm)) hpc)
    rw [if_neg hsl] at h
    split at h <;>
      (simp only [Option.some.injEq, Prod.mk.injEq] at h
       rw [← h.1]
       exact echoed_InvM m _ hm)

theorem incomingCall_InvM (m : Modem) (c : Nat) (m1 : Modem)
    (hm : InvM m) (h : incomingCall m c = some (.ok m1)) : InvM m1 := by
  unfold incomingCall at h
  split at h
  · simp at h
  · rename_i hst
    simp only [not_not] at hst
    rw [setStatus_ringing_of_idle m hst] at h
    simp only [Option.map_some', Option.some.injEq, Except.ok.injEq] at h
    rw [← h]
    refine InvM_bump hm rfl rfl ?_
    intro _
    simp [connStatuses]

theorem close_InvM (m : Modem) (m1 : Modem)
    (hm : InvM m) (h : close m = some m1) : InvM m1 := by
  unfold close at h
  by_cases hst : m.st = ModemStatus.Closed
  · rw [show setStatus m .Closed = none by simp [setStatus, hst]] at h
    simp at h
  · rw [setStatus_closed_of m hst] at h
    simp only [Option.map_some', Option.some.injEq] at h
    rw [← h]
    refine InvM_bump hm rfl rfl ?_
    intro habs
    exact absurd rfl habs

theorem InvM_erase (m : Modem) (x : Nat × String) (hm : InvM m) :
    InvM { m with dials := m.dials.erase x } := by
  refine ⟨hm.1, ?_, ?_⟩
  · intro p hp
    exact hm.2.1 p (List.mem_of_mem_erase hp)
  · intro p hp he
    exact hm.2.2 p (List.mem_of_mem_erase hp) he

theorem processDialing_InvM (m : Modem) (cap : Nat) (num : String) (res : DialResult)
    (m1 : Modem) (hm : InvM m) (hmem : (cap, num) ∈ m.dials)
    (h : processDialing m cap res = some m1) : InvM m1 := by
  unfold processDialing at h
  by_cases hcan : scopeCancelled m cap = true
  · rw [if_pos hcan] at h
    rcases res with _ | s <;> simp only [Option.some.injEq] at h <;> rw [← h]
    · exact hm
    · exact InvM_of_fields hm rfl rfl rfl rfl
  · rw [if_neg hcan] at h
    have hcap : cap = m.stEpoch := by
      unfold scopeCancelled at hcan
      simp at hcan
      exact hcan.1
    have hst : m.st = ModemStatus.Dialing := hm.2.2 (cap, num) hmem hcap
    have hnone := conn_none_of_dialing hm hst
    rcases res with _ | s
    · change setStatus m ModemStatus.Idle = some m1 at h
      rw [setStatus_idle_of_dialing m hst] at h
      simp only [Option.some.injEq] at h
      rw [← h]
      refine InvM_bump hm rfl rfl ?_
      intro _
      simp [connStatuses, hnone]
    · change setStatus { m with conn := some s } ModemStatus.Connected = some m1 at h
      rw [setStatus_connected_of { m with conn := some s } (Or.inl hst)] at h
      simp only [Option.some.injEq] at h
      rw [← h]
      refine InvM_bump hm rfl rfl ?_
      intro _
      simp [connStatuses]

theorem step_InvM {s s1 : Sys} (hstep : Step s s1) (hm : InvM s.m) : InvM s1.m := by
  cases hstep with
  | tty b hrun h => exact ttyByte_InvM _ _ _ _ _ hm h
  | incoming c h => exact incomingCall_InvM _ _ _ hm h
  | atCmd cmd h => exact processAtCommand_InvM _ _ _ _ hm h
  | closeStep h => exact close_InvM _ _ hm h
  | dialFin cap num res hmem h =>
    exact InvM_erase _ _ (processDialing_InvM _ _ _ _ _ hm hmem h)
  | writeTty str => exact InvM_of_fields hm rfl rfl rfl rfl

theorem reachable_InvM {s : Sys} (h : Reachable s) : InvM s.m := by
  induction h with
  | init hasOut => simp [InvM, initSys, freshModem, connStatuses]
  | step _ hstep ih => exact step_InvM hstep ih

theorem atLoopF_result : ∀ (fuel : Nat) (m : Modem) (input : List Char)
    (r0 r : CmdReturn) (m1 : Modem),
    atLoopF fuel m input r0 = .out r m1 →
    (atChainF fuel m input).2.2 = some m1 ∧
    r = (if (atChainF fuel m input).2.1 then CmdReturn.Error
         else (atChainF fuel m input).1.getLastD r0) := by
  intro fuel
  induction fuel with
  | zero => intro m input r0 r m1 h; simp [atLoopF] at h
  | succ k ih =>
    intro m input r0 r m1 h
    match input with
    | [] =>
      simp only [atLoopF, LoopOut.out.injEq] at h
      simp [atChainF, ← h.1, ← h.2]
    | b :: rest =>
      rcases hp : parseSub (b :: rest) initSub with ⟨s, e, rem⟩
      simp only [atLoopF, hp] at h
      simp only [atChainF, hp]
      rcases e with _ | _
      · simp only [Bool.false_eq_true, if_false] at h ⊢
        rcases hc : processCommand m (upperStr s.cmdChar) s.cmdNum s.cmdAssign s.cmdQuery
            s.cmdAssignVal with _ | ⟨r2, m2⟩
        · rw [hc] at h; simp at h
        · rw [hc] at h
          simp only [] at h ⊢
          by_cases hr2 : r2 = CmdReturn.Error
          · rw [if_pos hr2] at h ⊢
            simp only [LoopOut.out.injEq] at h
            simp [← h.1, ← h.2, hr2]
          rw [if_neg hr2] at h ⊢
          by_cases hlong : s.cmdLong
          · rw [if_pos hlong] at h ⊢
            simp only [LoopOut.out.injEq] at h
            simp [← h.1, ← h.2]
          rw [if_neg hlong] at h ⊢
          obtain ⟨ih1, ih2⟩ := ih m2 rem r2 r m1 h
          rcases hch : atChainF k m2 rem with ⟨rs, mf, mo⟩
          rw [hch] at ih1 ih2
          simp only [] at ih1 ih2 ⊢
          exact ⟨ih1, by rw [ih2, List.getLastD_cons]⟩
      · simp only [if_true] at h
        simp only [LoopOut.out.injEq] at h
        simp [← h.1, ← h.2]

set_option maxHeartbeats 1000000 in
theorem setStatus_char (m : Modem) (tgt : ModemStatus)
    (hc : m.conn.isSome = true ↔ connStatuses m.st) :
    ((setStatus m tgt).isSome = true ↔
      (specTable m.st tgt = true ∨ (m.st = .Idle ∧ tgt = .Idle))) ∧
    (∀ m2, setStatus m tgt = some m2 →
      m2.st = tgt ∧ m2.stEpoch = m.stEpoch + 1 ∧
      m2.out = m.out ++ transOutput m tgt ∧
      m2.conn = (if discardsConn m.st tgt then none else m.conn) ∧
      m2.closedStreams = m.closedStreams ++
        (if discardsConn m.st tgt then m.conn.toList else []) ∧
      m2.sregs = m.sregs ∧ m2.echo = m.echo ∧ m2.shortForm = m.shortForm ∧
      m2.connectStr = m.connectStr ∧ m2.hasOutgoingCall = m.hasOutgoingCall ∧
      m2.dials = m.dials ∧ m2.lifetimeCancelled = m.lifetimeCancelled ∧
      m2.ttyClosed = m.ttyClosed ∧ m2.connOut = m.connOut) := by
  obtain ⟨st, ep, conn, sregs, echo, sf, cstr, hoc, dials, lc, tc, out, co, cls⟩ := m
  simp only [connStatuses] at hc
  cases st <;> cases tgt <;> rcases conn with _ | c <;>
    simp_all [setStatus, specTable, transOutput, discardsConn, printRetCode,
      Modem.ttyWrite, String.append_assoc]

/-- C1 (code bug in the source): after an incoming call is injected into
a fresh Idle modem the status is Ringing, but processing the command
line "A" then returns ERROR and leaves the modem Ringing: the status
gate of `processAtCommand` (vmodem.go:384) rejects every line unless the
status is Idle or ConnectedCmd, which makes the Ringing branch of the
built-in `A` command (vmodem.go:363-367, the transition to Connected
with the silent result that the claim describes) unreachable dead code. -/
theorem c1_answer_while_ringing_rejected :
    incomingCall (freshModem false) 3 = some (.ok ringingM) ∧
    ringingM.st = .Ringing ∧
    processAtCommand ringingM "A" = some (.Error, ringingM) ∧
    ringingM.out = "" := by
  refine ⟨by decide, by decide, by decide, by decide⟩

/-- C2 (amended): at every reachable observation point whose status is
not Closed, the connection is non-absent iff the status is Ringing,
Connected or ConnectedCmd; close, however, discards nothing (it neither
clears nor closes the connection), so the equivalence does not extend to
the Closed status. -/
theorem c2_connection_iff_status_outside_closed :
    (∀ s, Reachable s → s.m.st ≠ .Closed →
      (s.m.conn.isSome = true ↔
        (s.m.st = .Ringing ∨ s.m.st = .Connected ∨ s.m.st = .ConnectedCmd))) ∧
    (∀ m m1, close m = some m1 →
      m1.conn = m.conn ∧ m1.closedStreams = m.closedStreams) := by
  constructor
  · intro s hs hne
    have h := (reachable_InvM hs).1 hne
    simpa [connStatuses] using h
  · intro m m1 h
    unfold close at h
    by_cases hst : m.st = ModemStatus.Closed
    · rw [show setStatus m .Closed = none by simp [setStatus, hst]] at h
      simp at h
    · rw [setStatus_closed_of m hst] at h
      simp only [Option.map_some', Option.some.injEq] at h
      rw [← h]
      exact ⟨rfl, rfl⟩

/-- Witness for C2: the amended theorem applied at the initial system
(no connection while Idle) and at the concrete close of a Ringing
modem. -/
theorem c2_connection_iff_status_outside_closed_witness :
    ((initSys false).m.conn.isSome = true ↔
      ((initSys false).m.st = .Ringing ∨ (initSys false).m.st = .Connected ∨
        (initSys false).m.st = .ConnectedCmd)) ∧
    (c2m2.conn = c2m1.conn ∧ c2m2.closedStreams = c2m1.closedStreams) :=
  ⟨c2_connection_iff_status_outside_closed.1 (initSys false) (.init false) (by decide),
   c2_connection_iff_status_outside_closed.2 c2m1 c2m2 (by decide)⟩

/-- Counterexample for C2 as stated: closing a Ringing modem reaches an
observation point whose status is Closed (not in the set) while the
connection is still present and was never closed, so close does not
discard the connection and the claimed equivalence fails there. -/
theorem c2_counterexample :
    incomingCall (freshModem false) 7 = some (.ok c2m1) ∧
    close c2m1 = some c2m2 ∧
    Reachable ⟨c2m2, initTty⟩ ∧
    c2m2.st = .Closed ∧ c2m2.conn = some 7 ∧ c2m2.closedStreams = [] ∧
    ¬(c2m2.st = .Ringing ∨ c2m2.st = .Connected ∨ c2m2.st = .ConnectedCmd) := by
  refine ⟨by decide, by decide, ?_, by decide, by decide, by decide, by decide⟩
  have h1 : Step (initSys false) ⟨c2m1, initTty⟩ :=
    @Step.incoming (initSys false) c2m1 7 (by decide)
  have h2 : Step ⟨c2m1, initTty⟩ ⟨c2m2, initTty⟩ :=
    @Step.closeStep ⟨c2m1, initTty⟩ c2m2 (by decide)
  exact Reachable.step (Reachable.step (Reachable.init false) h1) h2

/-- C3 (amended): on states satisfying the connection invariant,
`setStatus` succeeds exactly on the pairs of the spec §4.1 table plus
the self-transition Idle→Idle (which the code accepts as a no-op instead
of failing fatally), and on success performs exactly the specified side
effects: the prescribed result-code print, the prescribed connection
close-and-discard, a bump of the status scope, and nothing else. -/
theorem c3_setStatus_table (m : Modem) (tgt : ModemStatus)
    (hc : m.conn.isSome = true ↔ connStatuses m.st) :
    ((setStatus m tgt).isSome = true ↔
      (specTable m.st tgt = true ∨ (m.st = .Idle ∧ tgt = .Idle))) ∧
    (∀ m2, setStatus m tgt = some m2 →
      m2.st = tgt ∧ m2.stEpoch = m.stEpoch + 1 ∧
      m2.out = m.out ++ transOutput m tgt ∧
      m2.conn = (if discardsConn m.st tgt then none else m.conn) ∧
      m2.closedStreams = m.closedStreams ++
        (if discardsConn m.st tgt then m.conn.toList else []) ∧
      m2.sregs = m.sregs ∧ m2.echo = m.echo ∧ m2.shortForm = m.shortForm ∧
      m2.connectStr = m.connectStr ∧ m2.hasOutgoingCall = m.hasOutgoingCall ∧
      m2.dials = m.dials ∧ m2.lifetimeCancelled = m.lifetimeCancelled ∧
      m2.ttyClosed = m.ttyClosed ∧ m2.connOut = m.connOut) :=
  setStatus_char m tgt hc

/-- Witness for C3: a fresh modem satisfies the connection hypothesis,
and the table transition Idle→Dialing indeed succeeds. -/
theorem c3_setStatus_table_witness :
    (setStatus (freshModem false) ModemStatus.Dialing).isSome = true :=
  (c3_setStatus_table (freshModem false) .Dialing (by decide)).1.mpr
    (Or.inl (by decide))

/-- Counterexample for C3 as stated: the pair (Idle, Idle) is not in the
§4.1 table, yet `setStatus` succeeds on it (side-effect-free self
transition) instead of failing fatally. -/
theorem c3_counterexample :
    setStatus (freshModem false) .Idle = some { freshModem false with stEpoch := 1 } ∧
    specTable .Idle .Idle = false := by
  refine ⟨by decide, by decide⟩

/-- C4: when the status scope captured at dial start is no longer live,
the resumed dial task closes any stream the capability produced, stores
nothing and performs no transition; when it is still live (hence the
status is still Dialing), on failure it transitions to Idle (printing NO
CARRIER) and on success it stores the stream and transitions to
Connected (printing the connect string). -/
theorem c4_dial_race (m : Modem) (cap : Nat) :
    (∀ s, scopeCancelled m cap = true →
      processDialing m cap (.success s) =
        some { m with closedStreams := m.closedStreams ++ [s] } ∧
      processDialing m cap .failure = some m) ∧
    (scopeCancelled m cap = false → m.st = .Dialing →
      processDialing m cap .failure =
        some { m with st := .Idle, stEpoch := m.stEpoch + 1,
                      out := m.out ++ m.cr ++ retCodeStr m .NoCarrier ++ m.cr } ∧
      ∀ s, processDialing m cap (.success s) =
        some { m with conn := some s, st := .Connected, stEpoch := m.stEpoch + 1,
                      out := m.out ++ m.cr ++ retCodeStr m .Connect ++ m.cr }) := by
  constructor
  · intro s hcan
    constructor <;> simp [processDialing, hcan]
  · intro hcan hst
    constructor
    · simp only [processDialing, hcan, Bool.false_eq_true, if_false]
      change setStatus m ModemStatus.Idle = _
      rw [setStatus_idle_of_dialing m hst]
    · intro s
      simp only [processDialing, hcan, Bool.false_eq_true, if_false]
      change setStatus { m with conn := some s } ModemStatus.Connected = _
      rw [setStatus_connected_of { m with conn := some s } (Or.inl hst)]
      rfl

/-- Witness for C4: both halves applied to a concrete Dialing modem,
with a stale captured scope (epoch 1 vs current 0) and a live one. -/
theorem c4_dial_race_witness :
    processDialing dialingM 1 (.success 9) =
      some { dialingM with closedStreams := dialingM.closedStreams ++ [9] } ∧
    processDialing dialingM 0 (.success 9) =
      some { dialingM with conn := some 9, st := .Connected,
                           stEpoch := dialingM.stEpoch + 1,
                           out := dialingM.out ++ dialingM.cr ++
                             retCodeStr dialingM .Connect ++ dialingM.cr } :=
  ⟨((c4_dial_race dialingM 1).1 9 (by decide)).1,
   ((c4_dial_race dialingM 0).2 (by decide) (by decide)).2 9⟩

/-- C5: on a fresh (verbose) modem the line "S5=42" stores 42 in
register 5 and reports OK, and the line "S5?" then prints the line
`\r\n042\r\n` (exactly the three zero-padded digits 042) and reports OK:
the value read back is the value assigned. -/
theorem c5_s_register_roundtrip :
    processAtCommand (freshModem false) "S5=42" =
      some (.Ok, { freshModem false with sregs := [(5, 42)] }) ∧
    sregGet [(5, 42)] 5 = 42 ∧ pad3 42 = "042" ∧
    processAtCommand { freshModem false with sregs := [(5, 42)] } "S5?" =
      some (.Ok,
        { freshModem false with sregs := [(5, 42)], out := "\r\n" ++ "042" ++ "\r\n" }) := by
  refine ⟨by decide, by decide, by decide, by decide⟩

/-- C6 (amended): the D command while Idle with no outgoing-call
capability returns the "no carrier" result (the code returns
`RetCodeNoCarrier`, not "no dial tone"). -/
theorem c6_dial_without_capability (m : Modem) (n : String) (a q : Bool) (v : String)
    (hst : m.st = .Idle) (hcap : m.hasOutgoingCall = false) :
    processCommand m "D" n a q v = some (.NoCarrier, m) := by
  unfold processCommand
  simp [hst, hcap]

/-- Witness for C6: the amended theorem at a fresh capability-less
modem. -/
theorem c6_dial_without_capability_witness :
    processCommand (freshModem false) "D" "" false false "5551234" =
      some (.NoCarrier, freshModem false) :=
  c6_dial_without_capability (freshModem false) "" false false "5551234" rfl rfl

/-- Counterexample for C6 as stated: dialling on a fresh Idle modem with
no capability yields NO CARRIER, which is not the NO DIALTONE result the
claim names. -/
theorem c6_counterexample :
    processAtCommand (freshModem false) "D5551234" =
      some (.NoCarrier, freshModem false) ∧
    CmdReturn.NoCarrier ≠ CmdReturn.NoDialtone := by
  refine ⟨by decide, by decide⟩

/-- C7 (amended): for every line processed in a command-capable status,
the reported result is ERROR if the line is malformed (a grammar
violation aborts the chain with ERROR even when every executed
sub-command succeeded), and otherwise the result of the last executed
sub-command (which is the first erroring one when one errors, since the
chain stops there), OK when none executed. -/
theorem c7_line_result (m : Modem) (cmd : String) (r : CmdReturn) (m1 : Modem)
    (hst : m.st = .Idle ∨ m.st = .ConnectedCmd)
    (h : processAtCommand m cmd = some (r, m1)) :
    (atChain m cmd).2.2 = some m1 ∧
    r = (if (atChain m cmd).2.1 then CmdReturn.Error
         else (atChain m cmd).1.getLastD .Ok) := by
  unfold processAtCommand at h
  rw [if_neg (by rcases hst with hst | hst <;> simp [hst])] at h
  unfold atChain
  rcases hl : atLoopF (cmd.data.length + 1) m cmd.data .Ok with ⟨r2, m2⟩ | _ | _ <;>
    rw [hl] at h
  · simp only [Option.some.injEq, Prod.mk.injEq] at h
    obtain ⟨h1, h2⟩ := h
    rw [← h1, ← h2]
    exact atLoopF_result _ _ _ _ _ _ hl
  · simp at h
  · simp at h

/-- Witness for C7: the amended characterization at the line "E0" on a
fresh modem (one executed sub-command, result OK). -/
theorem c7_line_result_witness :
    (atChain (freshModem false) "E0").2.2 =
      some { freshModem false with echo := false } ∧
    CmdReturn.Ok = (if (atChain (freshModem false) "E0").2.1 then CmdReturn.Error
         else (atChain (freshModem false) "E0").1.getLastD .Ok) :=
  c7_line_result (freshModem false) "E0" .Ok _ (Or.inl rfl) (by decide)

/-- Counterexample for C7 as stated: on the line "E0$" the only executed
sub-command returns OK and none returns ERROR, yet the line reports
ERROR (the trailing "$" is a grammar violation), contradicting "the
result of the first erroring sub-command, or of the last executed". -/
theorem c7_counterexample :
    processAtCommand (freshModem false) "E0$" =
      some (.Error, { freshModem false with echo := false }) ∧
    (atChain (freshModem false) "E0$").1 = [CmdReturn.Ok] ∧
    (if CmdReturn.Error ∈ (atChain (freshModem false) "E0$").1 then CmdReturn.Error
     else (atChain (freshModem false) "E0$").1.getLastD .Ok) = CmdReturn.Ok ∧
    CmdReturn.Error ≠ CmdReturn.Ok := by
  refine ⟨by decide, by decide, by decide, by decide⟩

/-- C8 (amended): every framed result code uses the configured line
ending on both sides, but the S-register query line uses the line ending
only on its left and a hard-coded `\r\n` terminator on its right (so in
terse mode the query line ends `\r\n`, not `\r`). -/
theorem c8_line_endings (m : Modem) (ret : CmdReturn) (n : String)
    (hret : ret ≠ CmdReturn.Silent)
    (hn : ¬(atoiGo n < 0 ∨ atoiGo n > 255)) :
    printRetCode m ret = m.ttyWrite (m.cr ++ retCodeStr m ret ++ m.cr) ∧
    processCommand m "S" n false true "" =
      some (.Ok, m.ttyWrite (m.cr ++ pad3 (sregGet m.sregs (atoiGo n).toNat) ++ "\r\n")) := by
  constructor
  · simp [printRetCode, hret]
  · unfold processCommand
    simp [hn]

/-- Witness for C8: the amended theorem at a fresh modem, result code OK
and register 5. -/
theorem c8_line_endings_witness :
    printRetCode (freshModem false) .Ok =
      (freshModem false).ttyWrite ((freshModem false).cr ++
        retCodeStr (freshModem false) .Ok ++ (freshModem false).cr) ∧
    processCommand (freshModem false) "S" "5" false true "" =
      some (.Ok, (freshModem false).ttyWrite ((freshModem false).cr ++
        pad3 (sregGet (freshModem false).sregs (atoiGo "5").toNat) ++ "\r\n")) :=
  c8_line_endings (freshModem false) .Ok "5" (by decide) (by decide)

/-- Counterexample for C8 as stated: after "V0" selects terse form, the
query "S?" emits `\r000\r\n`, whose right side is not the terse line
ending: the line is not framed by `\r` on both sides. -/
theorem c8_counterexample :
    processAtCommand (freshModem false) "V0S?" =
      some (.Ok, { freshModem false with shortForm := true, out := "\r000\r\n" }) ∧
    terseModem.cr = "\r" ∧
    "\r000\r\n" ≠ "\r" ++ "000" ++ "\r" := by
  refine ⟨by decide, by decide, by decide⟩

/-- C9 (amended): in command-entry mode, a byte arriving while the edit
buffer already holds 100 characters (other than delete and carriage
return, and outside the Connected/Dialing special paths) is ignored
entirely: it is neither buffered nor echoed. -/
theorem c9_full_buffer_ignored (m : Modem) (t : TtyState) (b : Char)
    (h1 : m.st ≠ .Connected) (h2 : m.st ≠ .Dialing) (h3 : t.atFlag = true)
    (h4 : 100 ≤ t.buffer.length) (h5 : b.toNat ≠ 0x7f) (h6 : b ≠ '\r') :
    ttyByte m t b = some (m, t) := by
  unfold ttyByte
  rw [if_neg h1, if_neg h2]
  simp only [h3, Bool.not_true, Bool.false_eq_true, if_false]
  rw [if_neg h5, if_neg h6,
    if_neg (by intro hx; have := hx.1; omega)]

/-- Witness for C9: the amended theorem at a fresh modem with a full
edit buffer and the printable byte 'y'. -/
theorem c9_full_buffer_ignored_witness :
    ttyByte (freshModem true) fullBuf 'y' = some (freshModem true, fullBuf) :=
  c9_full_buffer_ignored (freshModem true) fullBuf 'y'
    (by decide) (by decide) (by decide) (by decide) (by decide) (by decide)

/-- Counterexample for C9 as stated: with echo enabled and the buffer
holding 100 characters, the 101st printable byte leaves modem and
read-task state completely unchanged: it is dropped and, contrary to the
claim, not echoed (the terminal output does not grow). -/
theorem c9_counterexample :
    (freshModem false).echo = true ∧ fullBuf.buffer.length = 100 ∧
    isPrintGo 'x' = true ∧
    ttyByte (freshModem false) fullBuf 'x' = some (freshModem false, fullBuf) := by
  refine ⟨by decide, by decide, by decide, by decide⟩

/-- C10: a short command with no digits gets numeric argument 0:
`processCommand` behaves identically on an empty and on a "0" numeric
argument, "E" alone disables echo with OK, "V" alone selects terse form
with OK, and "S?" queries register 0 (printing `000`) with OK. -/
theorem c10_omitted_number_is_zero :
    (∀ (m : Modem) (c : String) (a q : Bool) (v : String),
      processCommand m c "" a q v = processCommand m c "0" a q v) ∧
    processAtCommand (freshModem false) "E" =
      some (.Ok, { freshModem false with echo := false }) ∧
    processAtCommand (freshModem false) "V" =
      some (.Ok, { freshModem false with shortForm := true }) ∧
    processAtCommand (freshModem false) "S?" =
      some (.Ok, { freshModem false with out := "\r\n" ++ "000" ++ "\r\n" }) := by
  refine ⟨?_, by decide, by decide, by decide⟩
  intro m c a q v
  have h : atoiGo "" = atoiGo "0" := by decide
  unfold processCommand
  rw [h]
